import Mathlib

/-!
Verification of the dynamic topic-name resolver of the ros2 publisher
template (src/minimal_publisher/member_function.cpp), namespace make87.
Strings are modelled as lists of bytes (natural numbers), since the C++
code works on std::string byte-by-byte.  The two functions under study
are `sanitize_and_checksum` (the identifier normalizer) and
`resolve_topic_name` (the lookup-with-fallback resolver).  The JSON
library boundary (nlohmann) is modelled by an inductive `Json` value
together with an `EnvTopics` type recording the three observable
outcomes of getenv-plus-parse: variable unset, parse error, or a parsed
document.
-/

namespace Make87

/-- The bytes of an ASCII Lean string literal, used to write concrete
byte strings readably. -/
def strBytes (s : String) : List Nat := s.data.map Char.toNat

/-- The fixed leading segment `ros2_` of every normalized identifier
(the C++ local `const std::string prefix`). -/
def ros2Header : List Nat := strBytes "ros2_"

/-- One step of the sanitize loop: an ASCII letter, digit or underscore
is kept, any other byte becomes an underscore (byte 95).  Mirrors the
range checks `c >= 'a' && c <= 'z'` etc. of the source; the checks only
cover ASCII values, so signedness of `char` does not change the map. -/
def sanitizeByte (b : Nat) : Nat :=
  if (97 ≤ b ∧ b ≤ 122) ∨ (65 ≤ b ∧ b ≤ 90) ∨ (48 ≤ b ∧ b ≤ 57) ∨ b = 95
  then b else 95

/-- The sanitize loop of `sanitize_and_checksum`: builds the sanitized
string byte by byte, in order. -/
def sanitize : List Nat → List Nat
  | [] => []
  | b :: rest => sanitizeByte b :: sanitize rest

/-- One step of the checksum loop: `sum = (sum * 31 + b) % 1000000007ULL`
on a `uint64_t` accumulator; the 64-bit wraparound of the intermediate
product is made explicit even though it never fires for reachable
accumulator values. -/
def checksumStep (sum b : Nat) : Nat :=
  ((sum * 31 + b) % 2 ^ 64) % 1000000007

/-- The checksum of the original (unsanitized) bytes: left fold of
`checksumStep` from 0, exactly the second loop of the source. -/
def checksum (s : List Nat) : Nat := s.foldl checksumStep 0

/-- Worker for the decimal rendering: peel decimal digits of `n` onto
the front of `acc`, least significant first, so the result lists them
most significant first.  Structural recursion on a fuel argument keeps
the definition kernel-computable; any `fuel > n` is enough. -/
def decDigitsCore (fuel : Nat) (n : Nat) (acc : List Nat) : List Nat :=
  match fuel with
  | 0 => acc
  | fuel + 1 =>
    if n < 10 then (48 + n) :: acc
    else decDigitsCore fuel (n / 10) ((48 + n % 10) :: acc)

/-- Decimal rendering of a natural number as a list of ASCII digit
bytes, most significant first; models `std::to_string` on `uint64_t`
(no sign, no leading zeros, `0` renders as `"0"`). -/
def decDigits (n : Nat) : List Nat := decDigitsCore (n + 1) n []

/-- The numeric value of a list of ASCII digit bytes, used to state
that the rendered digits really denote the checksum. -/
def digitsVal (d : List Nat) : Nat := d.foldl (fun a b => a * 10 + (b - 48)) 0

/-- The normalizer `make87::sanitize_and_checksum`: sanitize the input,
checksum the original bytes, compute the remaining budget for the
sanitized segment with `size_t` arithmetic (256 minus header length
minus checksum length, wrapping modulo 2^64 like the unsigned C++
subtraction), truncate the sanitized segment to the budget, and
concatenate header, truncated segment and checksum digits. -/
def sanitize_and_checksum (input : List Nat) : List Nat :=
  let sanitized := sanitize input
  let checksumStr := decDigits (checksum input)
  let max_total_length : Nat := 256
  let header_length : Nat := ros2Header.length
  let checksum_length : Nat := checksumStr.length
  let max_sanitized_length : Nat :=
    (((max_total_length : Int) - (header_length : Int) - (checksum_length : Int)) % 2 ^ 64).toNat
  let truncated :=
    if sanitized.length > max_sanitized_length
    then sanitized.take max_sanitized_length
    else sanitized
  ros2Header ++ truncated ++ checksumStr

/-- A JSON value as delivered by the parsing library; object fields are
kept in order as an association list. -/
inductive Json where
  | null
  | jbool (b : Bool)
  | jnum (n : Int)
  | jstr (s : List Nat)
  | jarr (elems : List Json)
  | jobj (fields : List (List Nat × Json))

/-- First field of an object with the given key, `none` on non-objects
and missing keys. -/
def lookupField : List (List Nat × Json) → List Nat → Option Json
  | [], _ => none
  | (k, v) :: rest, key => if k = key then some v else lookupField rest key

/-- Field access `j[key]` guarded by `contains` in the source; `null`
when absent so the definition is total. -/
def Json.getField : Json → List Nat → Json
  | .jobj fields, key => (lookupField fields key).getD Json.null
  | _, _ => Json.null

/-- The library's `contains`: true only on objects holding the key. -/
def Json.hasField : Json → List Nat → Bool
  | .jobj fields, key => (lookupField fields key).isSome
  | _, _ => false

/-- The library's `is_array`. -/
def Json.isArray : Json → Bool
  | .jarr _ => true
  | _ => false

/-- The library's `is_string`. -/
def Json.isString : Json → Bool
  | .jstr _ => true
  | _ => false

/-- Comparison `j == s` of a JSON value with a `std::string`: true only
when the value is a string with those bytes. -/
def Json.eqStr : Json → List Nat → Bool
  | .jstr s, t => s = t
  | _, _ => false

/-- Elements of an array value; `[]` on non-arrays (only used under an
`is_array` guard, like the source's range-for). -/
def Json.asArray : Json → List Json
  | .jarr elems => elems
  | _ => []

/-- Bytes of a string value; only used under an `is_string` guard,
modelling `get<std::string>()`. -/
def Json.asStr : Json → List Nat
  | .jstr s => s
  | _ => []

/-- The byte string `topics`. -/
def topicsKey : List Nat := strBytes "topics"

/-- The byte string `topic_name`. -/
def nameKey : List Nat := strBytes "topic_name"

/-- The byte string `topic_key`. -/
def keyKey : List Nat := strBytes "topic_key"

/-- The observable state of the `TOPICS` environment variable after
getenv and the library parse: unset, set but not valid JSON (the parse
throws `parse_error`), or parsed into a document. -/
inductive EnvTopics where
  | unset
  | malformed
  | parsed (doc : Json)

/-- The search loop of `resolve_topic_name`: walk the `topics` entries
in document order; on an entry whose `topic_name` field equals the
search topic AND whose `topic_key` field is a string, return that key;
otherwise continue with the remaining entries (the C++ loop has no
`break`, so a name match without a usable key falls through to the next
iteration). -/
def scanTopics : List Json → List Nat → Option (List Nat)
  | [], _ => none
  | t :: rest, search_topic =>
    if t.hasField nameKey && (t.getField nameKey).eqStr search_topic then
      if t.hasField keyKey && (t.getField keyKey).isString then
        some (t.getField keyKey).asStr
      else scanTopics rest search_topic
    else scanTopics rest search_topic

/-- The resolver `make87::resolve_topic_name`: unset or malformed
`TOPICS` yields the default; a parsed document is searched only when it
holds an array field `topics`; a found key is normalized, every other
path returns the default. -/
def resolve_topic_name (env : EnvTopics) (search_topic default_value : List Nat) :
    List Nat :=
  match env with
  | .unset => default_value
  | .malformed => default_value
  | .parsed doc =>
    if doc.hasField topicsKey && (doc.getField topicsKey).isArray then
      match scanTopics (doc.getField topicsKey).asArray search_topic with
      | some key => sanitize_and_checksum key
      | none => default_value
    else default_value

/-! ## Helper lemmas about the sanitize loop -/

theorem sanitize_eq_map (s : List Nat) : sanitize s = s.map sanitizeByte := by
  induction s with
  | nil => rfl
  | cons b rest ih => simp [sanitize, ih]

theorem sanitize_length (s : List Nat) : (sanitize s).length = s.length := by
  rw [sanitize_eq_map]; simp

/-! ## Helper lemmas about the checksum -/

theorem foldl_checksumStep_lt (s : List Nat) :
    ∀ sum : Nat, sum < 1000000007 → s.foldl checksumStep sum < 1000000007 := by
  induction s with
  | nil => intro sum h; exact h
  | cons b rest ih =>
    intro sum _
    exact ih _ (Nat.mod_lt _ (by omega))

theorem checksum_lt (s : List Nat) : checksum s < 1000000007 :=
  foldl_checksumStep_lt s 0 (by omega)

/-! ## Helper lemmas about the decimal rendering -/

theorem decDigitsCore_spec (fuel : Nat) : ∀ (n : Nat) (acc : List Nat), n < fuel →
    ∃ ds : List Nat, decDigitsCore fuel n acc = ds ++ acc ∧ ds ≠ [] ∧
      (∀ b ∈ ds, 48 ≤ b ∧ b ≤ 57) ∧
      (ds.head? = some 48 → ds = [48]) ∧
      digitsVal ds = n ∧
      (∀ k, 1 ≤ k → n < 10 ^ k → ds.length ≤ k) := by
  induction fuel with
  | zero => intro n acc h; omega
  | succ fuel ih =>
    intro n acc hn
    by_cases h10 : n < 10
    · refine ⟨[48 + n], by simp [decDigitsCore, h10], by simp, ?_, ?_, ?_, ?_⟩
      · intro b hb; simp at hb; omega
      · intro h; simp at h; simp [h]
      · simp [digitsVal]
      · intro k hk _; simp; omega
    · obtain ⟨ds, hds, hne, hdig, hz, hval, hlen⟩ :=
        ih (n / 10) ((48 + n % 10) :: acc) (by omega)
      have hmod : n % 10 < 10 := Nat.mod_lt _ (by omega)
      have hdiv : 1 ≤ n / 10 := Nat.one_le_div_iff (by omega) |>.mpr (by omega)
      refine ⟨ds ++ [48 + n % 10], ?_, by simp, ?_, ?_, ?_, ?_⟩
      · rw [decDigitsCore]
        simp only [h10, if_false, hds, List.append_assoc, List.cons_append,
          List.nil_append]
      · intro b hb
        rcases List.mem_append.mp hb with hb | hb
        · exact hdig b hb
        · simp at hb; omega
      · intro h
        exfalso
        obtain ⟨a, l, rfl⟩ := List.exists_cons_of_ne_nil hne
        simp only [List.cons_append, List.head?_cons, Option.some.injEq] at h
        have := hz (by simp [h])
        rw [this] at hval
        simp [digitsVal] at hval
        omega
      · simp only [digitsVal, List.foldl_append, List.foldl_cons, List.foldl_nil]
        have : ds.foldl (fun a b => a * 10 + (b - 48)) 0 = n / 10 := hval
        rw [this]
        omega
      · intro k hk hnk
        have hk2 : 2 ≤ k := by
          by_contra hlt
          have : k = 1 := by omega
          subst this
          simp at hnk
          omega
        have : n / 10 < 10 ^ (k - 1) := by
          have h1 : 10 ^ k = 10 ^ (k - 1) * 10 := by
            have hsucc := pow_succ 10 (k - 1)
            have hke : k - 1 + 1 = k := by omega
            rw [hke] at hsucc
            exact hsucc
          rw [Nat.div_lt_iff_lt_mul (by omega)]
          omega
        have := hlen (k - 1) (by omega) this
        simp only [List.length_append, List.length_cons, List.length_nil]
        omega

theorem decDigits_spec (n : Nat) :
    decDigits n ≠ [] ∧
    (∀ b ∈ decDigits n, 48 ≤ b ∧ b ≤ 57) ∧
    ((decDigits n).head? = some 48 → decDigits n = [48]) ∧
    digitsVal (decDigits n) = n ∧
    (∀ k, 1 ≤ k → n < 10 ^ k → (decDigits n).length ≤ k) := by
  obtain ⟨ds, hds, hne, hdig, hz, hval, hlen⟩ :=
    decDigitsCore_spec (n + 1) n [] (by omega)
  have : decDigits n = ds := by rw [decDigits, hds, List.append_nil]
  rw [this]
  exact ⟨hne, hdig, hz, hval, hlen⟩

theorem checksum_digits_length_le (s : List Nat) :
    (decDigits (checksum s)).length ≤ 10 := by
  have h := (decDigits_spec (checksum s)).2.2.2.2
  exact h 10 (by omega) (by have := checksum_lt s; omega)

/-- Normalized form of `sanitize_and_checksum`: the checksum renders to
at most 10 digits, so the `size_t` budget subtraction never wraps and
equals `251 - checksum_length`. -/
theorem sanitize_and_checksum_eq (s : List Nat) :
    sanitize_and_checksum s =
      ros2Header ++
        (if (sanitize s).length > 251 - (decDigits (checksum s)).length
         then (sanitize s).take (251 - (decDigits (checksum s)).length)
         else sanitize s) ++
        decDigits (checksum s) := by
  have hcl := checksum_digits_length_le s
  have hros : ros2Header.length = 5 := rfl
  have key : (((256 : Nat) : Int) - (ros2Header.length : Int) -
        (((decDigits (checksum s)).length : Nat) : Int)) % 2 ^ 64 =
      ((251 - (decDigits (checksum s)).length : Nat) : Int) := by
    rw [hros]
    have h64 : (2 : Int) ^ 64 = 18446744073709551616 := by norm_num
    rw [h64]
    omega
  simp only [sanitize_and_checksum, key, Int.toNat_natCast]

/-- Claim C3: for every input string `s`, the length of
`sanitize_and_checksum s` is at most 256 characters. -/
theorem sanitize_and_checksum_length_le (s : List Nat) :
    (sanitize_and_checksum s).length ≤ 256 := by
  rw [sanitize_and_checksum_eq]
  have hcl := checksum_digits_length_le s
  have hros : ros2Header.length = 5 := rfl
  by_cases h : (sanitize s).length > 251 - (decDigits (checksum s)).length
  · rw [if_pos h]
    simp only [List.length_append, List.length_take, hros]
    omega
  · rw [if_neg h]
    simp only [List.length_append, hros]
    omega

/-- Claim C4: for every input string `s`, `sanitize_and_checksum s`
begins with the bytes `ros2_` and ends with a non-empty run of decimal
digit bytes, with no leading zero (a leading `0` only as the whole run
`0`), whose value lies in `[0, 1000000007)`. -/
theorem sanitize_and_checksum_shape (s : List Nat) :
    ∃ mid digits : List Nat,
      sanitize_and_checksum s = ros2Header ++ mid ++ digits ∧
      digits ≠ [] ∧
      (∀ b ∈ digits, 48 ≤ b ∧ b ≤ 57) ∧
      (digits.head? = some 48 → digits = [48]) ∧
      digitsVal digits < 1000000007 := by
  obtain ⟨hne, hdig, hz, hval, _⟩ := decDigits_spec (checksum s)
  refine ⟨_, decDigits (checksum s), sanitize_and_checksum_eq s, hne, hdig, hz, ?_⟩
  rw [hval]
  exact checksum_lt s

/-- Claim C5: the checksum is computed from the original bytes (fold of
`sum * 31 + byte mod 1000000007`), not from the sanitized form: the
inputs `a!b` and `a@b` sanitize identically to `a_b` yet their
checksums differ. -/
theorem checksum_from_original_bytes :
    (∀ s : List Nat, checksum s =
      s.foldl (fun sum b => ((sum * 31 + b) % 2 ^ 64) % 1000000007) 0) ∧
    sanitize (strBytes "a!b") = strBytes "a_b" ∧
    sanitize (strBytes "a@b") = strBytes "a_b" ∧
    checksum (strBytes "a!b") ≠ checksum (strBytes "a@b") :=
  ⟨fun _ => rfl, by decide, by decide, by decide⟩

/-- Claim C6: the sanitize stage maps each byte of the input
independently — ASCII letters, digits and underscore are copied, every
other byte becomes one underscore — so the sanitized string has the
same length as the input. -/
theorem sanitize_bytewise (s : List Nat) :
    sanitize s = s.map sanitizeByte ∧
    (sanitize s).length = s.length ∧
    (∀ b : Nat, ((97 ≤ b ∧ b ≤ 122) ∨ (65 ≤ b ∧ b ≤ 90) ∨ (48 ≤ b ∧ b ≤ 57) ∨ b = 95) →
      sanitizeByte b = b) ∧
    (∀ b : Nat, ¬((97 ≤ b ∧ b ≤ 122) ∨ (65 ≤ b ∧ b ≤ 90) ∨ (48 ≤ b ∧ b ≤ 57) ∨ b = 95) →
      sanitizeByte b = 95) := by
  refine ⟨sanitize_eq_map s, sanitize_length s, ?_, ?_⟩
  · intro b h
    unfold sanitizeByte
    rw [if_pos h]
  · intro b h
    unfold sanitizeByte
    rw [if_neg h]

/-- Claim C8: whenever the sanitized input is long enough that header,
sanitized segment and checksum together exceed 256 bytes, the result is
exactly 256 bytes long, built from the full header, the truncated
(leading bytes of the) sanitized segment, and the full checksum. -/
theorem sanitize_and_checksum_truncates (s : List Nat)
    (h : 256 < 5 + (sanitize s).length + (decDigits (checksum s)).length) :
    sanitize_and_checksum s =
      ros2Header ++ (sanitize s).take (251 - (decDigits (checksum s)).length) ++
        decDigits (checksum s) ∧
    (sanitize_and_checksum s).length = 256 := by
  have hcl := checksum_digits_length_le s
  have hgt : (sanitize s).length > 251 - (decDigits (checksum s)).length := by omega
  have hne : decDigits (checksum s) ≠ [] := (decDigits_spec _).1
  have hpos : 1 ≤ (decDigits (checksum s)).length := by
    cases hd : decDigits (checksum s) with
    | nil => exact absurd hd hne
    | cons a l => simp
  constructor
  · rw [sanitize_and_checksum_eq, if_pos hgt]
  · rw [sanitize_and_checksum_eq, if_pos hgt]
    have hros : ros2Header.length = 5 := rfl
    simp only [List.length_append, List.length_take, hros]
    omega

set_option maxRecDepth 8000 in
/-- Witness for claim C8's theorem: 260 copies of byte `a` force the
truncation case and produce an output of exactly 256 bytes. -/
theorem sanitize_and_checksum_truncates_witness :
    256 < 5 + (sanitize (List.replicate 260 97)).length +
        (decDigits (checksum (List.replicate 260 97))).length ∧
      (sanitize_and_checksum (List.replicate 260 97)).length = 256 :=
  ⟨by decide, (sanitize_and_checksum_truncates (List.replicate 260 97) (by decide)).2⟩

/-- Claim C9: the normalizer is total over all byte sequences, and on
the empty input it produces `ros2_0` — empty sanitized segment and the
checksum of the empty string rendered as `0`. -/
theorem sanitize_and_checksum_empty :
    sanitize_and_checksum [] = strBytes "ros2_0" ∧
    ∀ s : List Nat, ∃ out : List Nat, sanitize_and_checksum s = out :=
  ⟨by decide, fun s => ⟨_, rfl⟩⟩

/-! ## Helper lemmas about the resolver -/

theorem scanTopics_eq_find (entries : List Json) (st : List Nat) :
    scanTopics entries st =
      (entries.find? (fun t =>
          t.hasField nameKey && (t.getField nameKey).eqStr st &&
            (t.hasField keyKey && (t.getField keyKey).isString))).map
        (fun t => (t.getField keyKey).asStr) := by
  induction entries with
  | nil => rfl
  | cons t rest ih =>
    cases hname : t.hasField nameKey && (t.getField nameKey).eqStr st with
    | false => simp [scanTopics, hname, List.find?_cons, ih]
    | true =>
      cases hkey : t.hasField keyKey && (t.getField keyKey).isString with
      | false => simp [scanTopics, hname, hkey, List.find?_cons, ih]
      | true => simp [scanTopics, hname, hkey, List.find?_cons]

theorem scanTopics_none_of_no_name_match (entries : List Json) (st : List Nat)
    (h : ∀ t ∈ entries,
      (t.hasField nameKey && (t.getField nameKey).eqStr st) = false) :
    scanTopics entries st = none := by
  induction entries with
  | nil => rfl
  | cons t rest ih =>
    have ht := h t (by simp)
    simp only [scanTopics, ht, Bool.false_eq_true, if_false]
    exact ih fun u hu => h u (by simp [hu])

theorem resolve_parsed_topics (entries : List Json) (st dv : List Nat) :
    resolve_topic_name (.parsed (.jobj [(topicsKey, .jarr entries)])) st dv =
      match scanTopics entries st with
      | some key => sanitize_and_checksum key
      | none => dv := by
  unfold resolve_topic_name
  simp [Json.hasField, Json.getField, Json.isArray, Json.asArray, lookupField]

/-! ## The resolver claims -/

/-- Claim C1 counterexample: with two entries named `X`, the first
lacking a `topic_key`, the resolver does not return the default (as
first-match-by-name would demand) but keeps scanning and normalizes the
second entry's key `k`. -/
theorem resolve_scans_past_unusable_match :
    resolve_topic_name
      (.parsed (.jobj [(topicsKey, .jarr
        [ .jobj [(nameKey, .jstr (strBytes "X"))],
          .jobj [(nameKey, .jstr (strBytes "X")), (keyKey, .jstr (strBytes "k"))] ])]))
      (strBytes "X") (strBytes "default") = sanitize_and_checksum (strBytes "k") ∧
    sanitize_and_checksum (strBytes "k") ≠ strBytes "default" := by
  constructor
  · decide
  · decide

/-- Claim C1 (amended): the resolver scans the `topics` entries in
document order and the first entry whose `topic_name` equals the search
topic AND whose `topic_key` is present as a string decides the outcome;
a name-matching entry without a usable key does not stop the scan, and
when no entry has both, the default is returned. -/
theorem resolve_first_usable_match (entries : List Json) (st dv : List Nat) :
    resolve_topic_name (.parsed (.jobj [(topicsKey, .jarr entries)])) st dv =
      match entries.find? (fun t =>
          t.hasField nameKey && (t.getField nameKey).eqStr st &&
            (t.hasField keyKey && (t.getField keyKey).isString)) with
      | some t => sanitize_and_checksum ((t.getField keyKey).asStr)
      | none => dv := by
  rw [resolve_parsed_topics, scanTopics_eq_find]
  cases hf : entries.find? (fun t =>
      t.hasField nameKey && (t.getField nameKey).eqStr st &&
        (t.hasField keyKey && (t.getField keyKey).isString)) with
  | none => rfl
  | some t => rfl

/-- Claim C2: the resolver is total to its caller and every failure
path — `TOPICS` unset, `TOPICS` malformed, or no entry whose
`topic_name` matches — returns exactly the default value. -/
theorem resolve_defaults_on_failure (env : EnvTopics) (st dv : List Nat)
    (h : env = EnvTopics.unset ∨ env = EnvTopics.malformed ∨
      ∃ doc, env = EnvTopics.parsed doc ∧
        ∀ t ∈ (doc.getField topicsKey).asArray,
          (t.hasField nameKey && (t.getField nameKey).eqStr st) = false) :
    resolve_topic_name env st dv = dv := by
  rcases h with rfl | rfl | ⟨doc, rfl, hnone⟩
  · rfl
  · rfl
  · simp only [resolve_topic_name]
    by_cases hok : (doc.hasField topicsKey && (doc.getField topicsKey).isArray) = true
    · rw [if_pos hok, scanTopics_none_of_no_name_match _ _ hnone]
    · rw [if_neg hok]

/-- Witness for claim C2's theorem: with `TOPICS` unset, searching `X`
with default `default` yields `default`. -/
theorem resolve_defaults_on_failure_witness :
    resolve_topic_name EnvTopics.unset (strBytes "X") (strBytes "default") =
      strBytes "default" :=
  resolve_defaults_on_failure EnvTopics.unset (strBytes "X") (strBytes "default")
    (Or.inl rfl)

/-- Claim C7: with `TOPICS` holding one entry named `X` with key
`hello world!`, resolving `X` returns the normalized key — the header,
the sanitized key `hello_world_` and the checksum digits `352223445`. -/
theorem resolve_hello_world :
    resolve_topic_name
      (.parsed (.jobj [(topicsKey, .jarr
        [ .jobj [(nameKey, .jstr (strBytes "X")),
                 (keyKey, .jstr (strBytes "hello world!"))] ])]))
      (strBytes "X") (strBytes "default") =
      sanitize_and_checksum (strBytes "hello world!") ∧
    sanitize_and_checksum (strBytes "hello world!") =
      strBytes "ros2_hello_world_" ++ decDigits (checksum (strBytes "hello world!")) ∧
    sanitize_and_checksum (strBytes "hello world!") =
      strBytes "ros2_hello_world_352223445" := by
  refine ⟨?_, ?_, ?_⟩ <;> decide

/-- Claim C10: a parsed document without a `topics` field, or whose
`topics` field is not an array, makes the resolver skip the search and
return the default value. -/
theorem resolve_defaults_without_topics (doc : Json) (st dv : List Nat)
    (h : doc.hasField topicsKey = false ∨ (doc.getField topicsKey).isArray = false) :
    resolve_topic_name (EnvTopics.parsed doc) st dv = dv := by
  simp only [resolve_topic_name]
  have hcond : (doc.hasField topicsKey && (doc.getField topicsKey).isArray) = false := by
    rcases h with h | h <;> simp [h]
  simp [hcond]

/-- Witness for claim C10's theorem: an empty JSON object has no
`topics` field, so resolving `X` yields the default. -/
theorem resolve_defaults_without_topics_witness :
    resolve_topic_name (EnvTopics.parsed (Json.jobj [])) (strBytes "X")
      (strBytes "default") = strBytes "default" :=
  resolve_defaults_without_topics (Json.jobj []) (strBytes "X") (strBytes "default")
    (Or.inl rfl)

end Make87
